import Mathlib

/-!
Verification development for the sercha-cli HNSW wrapper
(`src/cgo/hnsw/hnsw_wrapper.cpp`).

The wrapper's pure numeric codecs (half-precision conversion, int8
quantization), its registry/state-machine logic (add, delete, search
post-processing, free), and its persistence loading logic are embedded
shallowly below.  Floating-point arithmetic in the quantizer is modelled
over `ℚ` (exact real semantics of the arithmetic expressions in the
source); the half-precision codec is modelled bit-exactly over `ℕ`.
Vector payloads that the wrapper never inspects are kept as an opaque
type parameter `V`; the external HNSW primitive's behaviour (graph
search) enters only through hypotheses on its declared contract.
-/

/-! ## Int8 symmetric quantization (hnsw_wrapper.cpp lines 103-129) -/

/-- Maximum absolute value of the components, starting from `0.0f`
(lines 105-108 of `quantize_vector_int8`). -/
def max_abs (v : List ℚ) : ℚ :=
  v.foldl (fun m x => max m |x|) 0

/-- `std::round`: round half away from zero. -/
def roundHalfAway (q : ℚ) : ℤ :=
  if 0 ≤ q then ⌊q + 1/2⌋ else ⌈q - 1/2⌉

/-- `std::max(-127.0f, std::min(127.0f, val))` (line 117). -/
def clamp127 (q : ℚ) : ℚ :=
  max (-127) (min 127 q)

/-- `quantize_vector_int8` (lines 103-122): per-vector symmetric int8
quantization.  Returns the codes and the scale factor. -/
def quantize_vector_int8 (inp : List ℚ) : List ℤ × ℚ :=
  let m := max_abs inp
  let scale : ℚ := if 0 < m then m / 127 else 1
  let inv_scale : ℚ := if 0 < m then 127 / m else 0
  (inp.map (fun x => roundHalfAway (clamp127 (x * inv_scale))), scale)

/-- `dequantize_vector_int8` (lines 125-129). -/
def dequantize_vector_int8 (inp : List ℤ) (scale : ℚ) : List ℚ :=
  inp.map (fun (c : ℤ) => (c : ℚ) * scale)

lemma le_foldl_max_abs (v : List ℚ) (a : ℚ) :
    a ≤ v.foldl (fun m x => max m |x|) a := by
  induction v generalizing a with
  | nil => simp
  | cons y ys ih =>
      simp only [List.foldl_cons]
      exact le_trans (le_max_left a |y|) (ih (max a |y|))

lemma max_abs_nonneg (v : List ℚ) : 0 ≤ max_abs v :=
  le_foldl_max_abs v 0

lemma mem_le_foldl_max_abs (v : List ℚ) (a : ℚ) (x : ℚ) (hx : x ∈ v) :
    |x| ≤ v.foldl (fun m x => max m |x|) a := by
  induction v generalizing a with
  | nil => cases hx
  | cons y ys ih =>
      simp only [List.foldl_cons]
      rcases List.mem_cons.mp hx with h | h
      · subst h
        exact le_trans (le_max_right a |x|) (le_foldl_max_abs ys (max a |x|))
      · exact ih (max a |y|) h

lemma mem_le_max_abs (v : List ℚ) (x : ℚ) (hx : x ∈ v) : |x| ≤ max_abs v :=
  mem_le_foldl_max_abs v 0 x hx

lemma max_abs_of_all_zero (v : List ℚ) (h : ∀ x ∈ v, x = 0) : max_abs v = 0 := by
  have h1 : max_abs v ≤ 0 := by
    unfold max_abs
    induction v with
    | nil => simp
    | cons y ys ih =>
        have hy : y = 0 := h y (List.mem_cons_self y ys)
        simp only [List.foldl_cons, hy, abs_zero, max_self]
        exact ih (fun x hx => h x (List.mem_cons_of_mem y hx))
  exact le_antisymm h1 (max_abs_nonneg v)

lemma roundHalfAway_abs_le (q : ℚ) : |(roundHalfAway q : ℚ) - q| ≤ 1/2 := by
  unfold roundHalfAway
  split
  · rw [abs_le]
    constructor
    · have h := Int.lt_floor_add_one (q + 1/2)
      push_cast at h ⊢
      linarith
    · have h := Int.floor_le (q + 1/2)
      push_cast at h ⊢
      linarith
  · rw [abs_le]
    constructor
    · have h := Int.le_ceil (q - 1/2)
      push_cast at h ⊢
      linarith
    · have h := Int.ceil_lt_add_one (q - 1/2)
      push_cast at h ⊢
      linarith

lemma roundHalfAway_mem_range (q : ℚ) (h1 : -127 ≤ q) (h2 : q ≤ 127) :
    -127 ≤ roundHalfAway q ∧ roundHalfAway q ≤ 127 := by
  unfold roundHalfAway
  by_cases hq : 0 ≤ q
  · rw [if_pos hq]
    have hfl : ((⌊q + 1/2⌋ : ℤ) : ℚ) ≤ q + 1/2 := Int.floor_le _
    have hfg : (q + 1/2) - 1 < ((⌊q + 1/2⌋ : ℤ) : ℚ) := by
      have := Int.lt_floor_add_one (q + 1/2)
      linarith
    constructor
    · by_contra hc
      push_neg at hc
      have h3 : (⌊q + 1/2⌋ : ℤ) ≤ -128 := by omega
      have : ((⌊q + 1/2⌋ : ℤ) : ℚ) ≤ -128 := by exact_mod_cast h3
      linarith
    · by_contra hc
      push_neg at hc
      have h3 : (128 : ℤ) ≤ ⌊q + 1/2⌋ := by omega
      have : (128 : ℚ) ≤ ((⌊q + 1/2⌋ : ℤ) : ℚ) := by exact_mod_cast h3
      linarith
  · rw [if_neg hq]
    have hcl : q - 1/2 ≤ ((⌈q - 1/2⌉ : ℤ) : ℚ) := Int.le_ceil _
    have hcg : ((⌈q - 1/2⌉ : ℤ) : ℚ) < (q - 1/2) + 1 := Int.ceil_lt_add_one _
    constructor
    · by_contra hc
      push_neg at hc
      have h3 : (⌈q - 1/2⌉ : ℤ) ≤ -128 := by omega
      have : ((⌈q - 1/2⌉ : ℤ) : ℚ) ≤ -128 := by exact_mod_cast h3
      linarith
    · by_contra hc
      push_neg at hc
      have h3 : (128 : ℤ) ≤ ⌈q - 1/2⌉ := by omega
      have : (128 : ℚ) ≤ ((⌈q - 1/2⌉ : ℤ) : ℚ) := by exact_mod_cast h3
      linarith

/-- C5 counterexample: on the all-zero vector `[0,0,0]` the returned scale
is `1`, not `0`, so "scale == 0 iff v is all-zero" fails. -/
theorem C5_scale_zero_counterexample :
    (∀ x ∈ [(0:ℚ), 0, 0], x = 0) ∧ (quantize_vector_int8 [(0:ℚ), 0, 0]).2 ≠ 0 := by
  constructor
  · decide
  · decide

/-- C5 (amended): the scale returned by `quantize_vector_int8` is always
strictly positive (hence never `0`); on an all-zero vector it equals `1`. -/
theorem quantize_scale_pos (v : List ℚ) :
    0 < (quantize_vector_int8 v).2 ∧
      ((∀ x ∈ v, x = 0) → (quantize_vector_int8 v).2 = 1) := by
  constructor
  · show 0 < if 0 < max_abs v then max_abs v / 127 else 1
    by_cases h : 0 < max_abs v
    · rw [if_pos h]
      positivity
    · rw [if_neg h]
      norm_num
  · intro hz
    show (if 0 < max_abs v then max_abs v / 127 else 1) = 1
    rw [max_abs_of_all_zero v hz]
    norm_num

/-- Closed witness for the amended C5 theorem at a concrete input. -/
theorem quantize_scale_pos_witness :
    0 < (quantize_vector_int8 [(0:ℚ), 0]).2 ∧ (quantize_vector_int8 [(0:ℚ), 0]).2 = 1 := by
  refine ⟨(quantize_scale_pos [(0:ℚ), 0]).1, (quantize_scale_pos [(0:ℚ), 0]).2 ?_⟩
  decide

lemma clamp127_mem_range (q : ℚ) : -127 ≤ clamp127 q ∧ clamp127 q ≤ 127 := by
  unfold clamp127
  exact ⟨le_max_left _ _, max_le (by norm_num) (min_le_left _ _)⟩

lemma clamp127_of_mem (q : ℚ) (h1 : -127 ≤ q) (h2 : q ≤ 127) : clamp127 q = q := by
  unfold clamp127
  rw [min_eq_right h2, max_eq_right h1]

lemma quantize_codes_getD (v : List ℚ) (i : ℕ) (hi : i < v.length) :
    (quantize_vector_int8 v).1.getD i 0 =
      roundHalfAway (clamp127 (v.getD i 0 *
        (if 0 < max_abs v then 127 / max_abs v else 0))) := by
  have hlen : i < ((quantize_vector_int8 v).1).length := by
    simpa [quantize_vector_int8] using hi
  rw [List.getD_eq_getElem _ _ hlen, List.getD_eq_getElem _ _ hi]
  simp [quantize_vector_int8]

/-- C6: quantization produces `scale = max|v_i|/127` (or `1` on the all-zero
vector), each code is `round(clamp(v_i / scale, -127, 127))` and lies in
`[-127, 127]`, dequantization reconstructs `codes_i * scale`, and every
component satisfies `|out_i - v_i| ≤ scale/2`. -/
theorem quantize_dequantize_int8_spec (v : List ℚ) :
    ((∃ x ∈ v, x ≠ 0) → (quantize_vector_int8 v).2 = max_abs v / 127) ∧
    ((∀ x ∈ v, x = 0) → (quantize_vector_int8 v).2 = 1) ∧
    (quantize_vector_int8 v).1.length = v.length ∧
    (∀ i, i < v.length → (quantize_vector_int8 v).1.getD i 0 =
        roundHalfAway (clamp127 (v.getD i 0 / (quantize_vector_int8 v).2))) ∧
    (∀ c ∈ (quantize_vector_int8 v).1, -127 ≤ c ∧ c ≤ 127) ∧
    (∀ i, i < v.length →
      |(dequantize_vector_int8 (quantize_vector_int8 v).1
          (quantize_vector_int8 v).2).getD i 0 - v.getD i 0| ≤
        (quantize_vector_int8 v).2 / 2) := by
  have hscale : (quantize_vector_int8 v).2 =
      if 0 < max_abs v then max_abs v / 127 else 1 := rfl
  refine ⟨?_, (quantize_scale_pos v).2, ?_, ?_, ?_, ?_⟩
  · rintro ⟨x, hx, hxne⟩
    have hpos : 0 < max_abs v := by
      have h1 : |x| ≤ max_abs v := mem_le_max_abs v x hx
      have h2 : 0 < |x| := abs_pos.mpr hxne
      linarith
    rw [hscale, if_pos hpos]
  · simp [quantize_vector_int8]
  · intro i hi
    rw [quantize_codes_getD v i hi]
    by_cases hpos : 0 < max_abs v
    · rw [hscale, if_pos hpos, if_pos hpos]
      have hne : max_abs v ≠ 0 := ne_of_gt hpos
      congr 2
      field_simp
    · rw [hscale, if_neg hpos, if_neg hpos]
      have hz : max_abs v = 0 := le_antisymm (not_lt.mp hpos) (max_abs_nonneg v)
      have hx : v.getD i 0 = 0 := by
        have hmem : v.getD i 0 ∈ v := by
          rw [List.getD_eq_getElem _ _ hi]
          exact List.getElem_mem hi
        have h1 : |v.getD i 0| ≤ max_abs v := mem_le_max_abs v _ hmem
        rw [hz] at h1
        simpa using le_antisymm h1 (abs_nonneg _)
      rw [hx]
      norm_num
  · intro c hc
    simp only [quantize_vector_int8, List.mem_map] at hc
    obtain ⟨x, _, hx⟩ := hc
    rw [← hx]
    exact roundHalfAway_mem_range _ (clamp127_mem_range _).1 (clamp127_mem_range _).2
  · intro i hi
    have hmem : v.getD i 0 ∈ v := by
      rw [List.getD_eq_getElem _ _ hi]
      exact List.getElem_mem hi
    set x := v.getD i 0 with hxdef
    have hcodelen : i < ((quantize_vector_int8 v).1).length := by
      simpa [quantize_vector_int8] using hi
    have hdq : (dequantize_vector_int8 (quantize_vector_int8 v).1
        (quantize_vector_int8 v).2).getD i 0 =
        ((quantize_vector_int8 v).1.getD i 0 : ℚ) * (quantize_vector_int8 v).2 := by
      have hlen2 : i < (dequantize_vector_int8 (quantize_vector_int8 v).1
          (quantize_vector_int8 v).2).length := by
        unfold dequantize_vector_int8
        rw [List.length_map]
        exact hcodelen
      rw [List.getD_eq_getElem _ _ hlen2, List.getD_eq_getElem _ _ hcodelen]
      unfold dequantize_vector_int8
      rw [List.getElem_map]
    rw [hdq, quantize_codes_getD v i hi, ← hxdef]
    by_cases hpos : 0 < max_abs v
    · rw [hscale, if_pos hpos, if_pos hpos]
      have hne : max_abs v ≠ 0 := ne_of_gt hpos
      set m := max_abs v with hm
      set val := x * (127 / m) with hval
      have habs : |x| ≤ m := mem_le_max_abs v x hmem
      have hvabs : |val| ≤ 127 := by
        rw [hval, abs_mul, abs_div]
        rw [abs_of_pos hpos, abs_of_nonneg (by norm_num : (0:ℚ) ≤ 127)]
        rw [div_eq_mul_inv, ← mul_assoc]
        have h1 : |x| * 127 ≤ m * 127 := by nlinarith
        calc |x| * 127 * m⁻¹ ≤ m * 127 * m⁻¹ := by
              apply mul_le_mul_of_nonneg_right h1
              positivity
          _ = 127 := by field_simp
      have hclamp : clamp127 val = val :=
        clamp127_of_mem val (abs_le.mp hvabs).1 (abs_le.mp hvabs).2
      rw [hclamp]
      have hrnd : |(roundHalfAway val : ℚ) - val| ≤ 1/2 := roundHalfAway_abs_le val
      have hxval : val * (m / 127) = x := by
        rw [hval]
        field_simp
      have hexpand : (roundHalfAway val : ℚ) * (m / 127) - x =
          ((roundHalfAway val : ℚ) - val) * (m / 127) := by
        rw [sub_mul, hxval]
      rw [hexpand, abs_mul]
      have hm127 : |m / 127| = m / 127 := abs_of_pos (by positivity)
      rw [hm127]
      calc |(roundHalfAway val : ℚ) - val| * (m / 127) ≤ (1/2) * (m / 127) := by
            apply mul_le_mul_of_nonneg_right hrnd
            positivity
        _ = (m / 127) / 2 := by ring
    · rw [hscale, if_neg hpos, if_neg hpos]
      have hz : max_abs v = 0 := le_antisymm (not_lt.mp hpos) (max_abs_nonneg v)
      have hx0 : x = 0 := by
        have h1 : |x| ≤ 0 := hz ▸ mem_le_max_abs v x hmem
        simpa using le_antisymm h1 (abs_nonneg x)
      rw [hx0]
      have : clamp127 (0 * 0) = 0 := by
        rw [mul_zero]
        unfold clamp127
        norm_num
      rw [this]
      have hr0 : roundHalfAway 0 = 0 := by
        unfold roundHalfAway
        rw [if_pos le_rfl]
        norm_num
      rw [hr0]
      norm_num

/-- Closed witness for the C6 theorem at a concrete input. -/
theorem quantize_dequantize_int8_spec_witness :
    (quantize_vector_int8 [(1:ℚ), -2]).2 = max_abs [(1:ℚ), -2] / 127 ∧
    (∀ c ∈ (quantize_vector_int8 [(1:ℚ), -2]).1, -127 ≤ c ∧ c ≤ 127) ∧
    (∀ i, i < 2 →
      |(dequantize_vector_int8 (quantize_vector_int8 [(1:ℚ), -2]).1
          (quantize_vector_int8 [(1:ℚ), -2]).2).getD i 0 - ([(1:ℚ), -2]).getD i 0| ≤
        (quantize_vector_int8 [(1:ℚ), -2]).2 / 2) := by
  obtain ⟨h1, _, _, _, h5, h6⟩ := quantize_dequantize_int8_spec [(1:ℚ), -2]
  exact ⟨h1 ⟨1, by decide, by decide⟩, h5, h6⟩

/-! ## Index state machine (hnsw_wrapper.cpp lines 135-571)

Vector payloads are never inspected by the wrapper's bookkeeping, so they
are an opaque type parameter `V`; `normalizeV` stands for
`normalize_vector` (lines 150-161, real-arithmetic L2 normalization
applied before insertion). -/

/-- One point stored in the external HNSW graph: its label, its
(normalized, full-precision) vector, and hnswlib's soft-delete mark. -/
structure HnswPoint (V : Type) where
  label : ℕ
  vec : V
  deleted : Bool

/-- The `HnswIndex` struct (lines 135-147).  `id_to_label` is the
`unordered_map<string,label>` modelled as a lookup function;
`label_to_id` is the `vector<string>`; `points` is the contents of the
external HNSW graph. -/
structure HnswState (V : Type) where
  id_to_label : String → Option ℕ
  label_to_id : List String
  next_label : ℕ
  max_elements : ℕ
  dimension : ℤ
  precision : ℤ
  points : List (HnswPoint V)
  modified : Bool

/-- `hnsw->markDelete(label)`: soft-delete the point with this label. -/
def markDelete {V : Type} (pts : List (HnswPoint V)) (l : ℕ) : List (HnswPoint V) :=
  pts.map (fun p => if p.label = l then { p with deleted := true } else p)

/-- `hnsw->addPoint(vec, label)`: insert a point under a fresh label. -/
def addPoint {V : Type} (pts : List (HnswPoint V)) (v : V) (l : ℕ) : List (HnswPoint V) :=
  pts ++ [⟨l, v, false⟩]

/-- The state built by `hnsw_create` (lines 390-407) after argument
validation: empty registry, label counter at zero, clean flag. -/
def freshState (V : Type) (dimension : ℤ) (max_elements : ℕ) (precision : ℤ) :
    HnswState V :=
  { id_to_label := fun _ => none
    label_to_id := []
    next_label := 0
    max_elements := max_elements
    dimension := dimension
    precision := precision
    points := []
    modified := false }

/-- `hnsw_create` (lines 381-416): rejects non-positive dimension or
capacity, otherwise returns a fresh empty index. -/
def hnsw_create (V : Type) (dimension : ℤ) (max_elements : ℤ) (precision : ℤ) :
    Option (HnswState V) :=
  if dimension ≤ 0 ∨ max_elements ≤ 0 then none
  else some (freshState V dimension max_elements.toNat precision)

/-- `hnsw_add` (lines 485-537).  The caller-supplied `dimension` argument
is compared against the index dimension; on an update the old label is
soft-deleted in the HNSW graph; the new label is `next_label++`; capacity
doubles when exceeded; the registry records the new pair and the dirty
flag is set.  (Null-pointer arguments are not representable here; the
source rejects them with `-1` before doing anything.) -/
def hnsw_add {V : Type} (normalizeV : V → V) (s : HnswState V)
    (chunk_id : String) (vector : V) (dimension : ℤ) : ℤ × HnswState V :=
  if dimension ≠ s.dimension then (-1, s)
  else
    let id := chunk_id
    let points1 :=
      match s.id_to_label id with
      | some old => markDelete s.points old
      | none => s.points
    let label := s.next_label
    let normalized := normalizeV vector
    let max2 := if label ≥ s.max_elements then s.max_elements * 2 else s.max_elements
    let points2 := addPoint points1 normalized label
    let l2i :=
      if label ≥ s.label_to_id.length then
        s.label_to_id ++ List.replicate (label + 1 - s.label_to_id.length) ""
      else s.label_to_id
    (0, { s with
      points := points2
      label_to_id := l2i.set label id
      id_to_label := fun k => if k = id then some label else s.id_to_label k
      next_label := label + 1
      max_elements := max2
      modified := true })

/-- `hnsw_delete` (lines 539-571): unknown identifier is a successful
no-op; otherwise the label is soft-deleted in the graph, erased from the
reverse map, its forward slot cleared to `""`, and the dirty flag set. -/
def hnsw_delete {V : Type} (s : HnswState V) (chunk_id : String) : ℤ × HnswState V :=
  match s.id_to_label chunk_id with
  | none => (0, s)
  | some label =>
      (0, { s with
        points := markDelete s.points label
        id_to_label := fun k => if k = chunk_id then none else s.id_to_label k
        label_to_id :=
          if label < s.label_to_id.length then s.label_to_id.set label "" else s.label_to_id
        modified := true })

/-- The post-processing of `hnsw_search` (lines 594-630) applied to the
pairs `(distance, label)` popped from the ANN primitive's result queue
(largest distance first): filter out labels whose registry slot is
tombstoned, reverse so the best result comes first, convert distance to
similarity via `1 - distance`, and return `nullptr` with count `0` when
nothing survives. -/
def hnsw_search_postprocess (label_to_id : List String) (raw : List (ℚ × ℕ)) :
    Option (List (String × ℚ)) × ℤ :=
  let valid_results := raw.filter
    (fun item => decide (item.2 < label_to_id.length ∧ label_to_id.getD item.2 "" ≠ ""))
  if valid_results = [] then (none, 0)
  else
    (some (valid_results.reverse.map
        (fun item => (label_to_id.getD item.2 "", 1 - item.1))),
     (valid_results.length : ℤ))

/-- `hnsw_free_results` (lines 636-643), modelled by the number of
deallocations it performs: none for a null pointer, otherwise one per
`chunk_id` plus one for the array. -/
def hnsw_free_results (results : Option (List (String × ℚ))) (count : ℤ) : ℕ :=
  match results with
  | none => 0
  | some _ => count.toNat + 1

/-- C9: deleting an identifier with no live label returns success (`0`)
and leaves the whole state — registry maps, graph contents, dirty flag —
untouched. -/
theorem hnsw_delete_not_found {V : Type} (s : HnswState V) (chunk_id : String)
    (h : s.id_to_label chunk_id = none) :
    hnsw_delete s chunk_id = (0, s) := by
  unfold hnsw_delete
  rw [h]

/-- Closed witness for C9 on a concrete fresh index. -/
theorem hnsw_delete_not_found_witness :
    (freshState Unit 3 10 0).id_to_label "missing" = none ∧
      hnsw_delete (freshState Unit 3 10 0) "missing" = (0, freshState Unit 3 10 0) :=
  ⟨rfl, hnsw_delete_not_found (freshState Unit 3 10 0) "missing" rfl⟩

/-- C8 counterexample: an empty (non-null) identifier is NOT rejected:
`hnsw_add` returns `0` (success) and mutates the state (dirty flag set,
label consumed), contradicting the claimed `-1` invalid-argument
failure. -/
theorem C8_empty_id_accepted :
    (hnsw_add (fun v : Unit => v) (freshState Unit 3 10 0) "" () 3).1 = 0 ∧
    (hnsw_add (fun v : Unit => v) (freshState Unit 3 10 0) "" () 3).2.modified = true ∧
    (hnsw_add (fun v : Unit => v) (freshState Unit 3 10 0) "" () 3).2.next_label = 1 := by
  refine ⟨rfl, rfl, rfl⟩

/-- C8 (amended): a dimension mismatch is rejected with `-1` before any
state mutation (the state is returned unchanged); null pointers are
likewise rejected up front in the source, but an empty identifier string
is accepted like any other identifier. -/
theorem hnsw_add_dimension_mismatch {V : Type} (normalizeV : V → V)
    (s : HnswState V) (chunk_id : String) (vector : V) (dimension : ℤ)
    (h : dimension ≠ s.dimension) :
    hnsw_add normalizeV s chunk_id vector dimension = (-1, s) := by
  unfold hnsw_add
  rw [if_pos h]

/-- Closed witness for the amended C8 theorem. -/
theorem hnsw_add_dimension_mismatch_witness :
    (4 : ℤ) ≠ (freshState Unit 3 10 0).dimension ∧
      hnsw_add (fun v : Unit => v) (freshState Unit 3 10 0) "x" () 4 =
        (-1, freshState Unit 3 10 0) :=
  ⟨by decide, hnsw_add_dimension_mismatch (fun v : Unit => v)
    (freshState Unit 3 10 0) "x" () 4 (by decide)⟩

/-- C1 failing-input evaluation: after `add("a", v1); add("a", v2)` the
old label's registry slot still holds `"a"` — it was soft-deleted only in
the ANN graph, never tombstoned in the registry — so two registry slots
are live for `"a"`, and the wrapper's own search filter would not exclude
the stale label 0 (a raw result at label 0 passes the tombstone filter
and is returned under id `"a"`). -/
theorem C1_update_stale_registry_slot :
    (hnsw_add (fun v : Unit => v)
        (hnsw_add (fun v : Unit => v) (freshState Unit 3 10 0) "a" () 3).2
        "a" () 3).2.label_to_id = ["a", "a"] ∧
    ((hnsw_add (fun v : Unit => v)
        (hnsw_add (fun v : Unit => v) (freshState Unit 3 10 0) "a" () 3).2
        "a" () 3).2.label_to_id.count "a" = 2) ∧
    (hnsw_add (fun v : Unit => v)
        (hnsw_add (fun v : Unit => v) (freshState Unit 3 10 0) "a" () 3).2
        "a" () 3).2.id_to_label "a" = some 1 ∧
    ((hnsw_add (fun v : Unit => v)
        (hnsw_add (fun v : Unit => v) (freshState Unit 3 10 0) "a" () 3).2
        "a" () 3).2.points.map (fun p => (p.label, p.deleted))) =
      [(0, true), (1, false)] ∧
    hnsw_search_postprocess
      (hnsw_add (fun v : Unit => v)
        (hnsw_add (fun v : Unit => v) (freshState Unit 3 10 0) "a" () 3).2
        "a" () 3).2.label_to_id [(0, 0)] = (some [("a", 1)], 1) := by
  refine ⟨rfl, by decide, by decide, rfl, ?_⟩
  show hnsw_search_postprocess (["a", "a"].set 1 "a") [(0, 0)] = (some [("a", 1)], 1)
  simp [hnsw_search_postprocess]

/-! ## Label monotonicity (C3) -/

/-- A client-visible mutating operation on one index instance. -/
inductive HnswOp (V : Type) where
  | add (chunk_id : String) (vector : V) (dimension : ℤ)
  | del (chunk_id : String)

/-- Run a sequence of operations, also returning the labels assigned by
the successful `add` calls, in order (each `add` that passes validation
assigns `next_label`, line 510). -/
def runOps {V : Type} (normalizeV : V → V) (s : HnswState V) :
    List (HnswOp V) → HnswState V × List ℕ
  | [] => (s, [])
  | HnswOp.add chunk_id vector dimension :: rest =>
      let step := hnsw_add normalizeV s chunk_id vector dimension
      let assigned := if dimension = s.dimension then [s.next_label] else []
      let r := runOps normalizeV step.2 rest
      (r.1, assigned ++ r.2)
  | HnswOp.del chunk_id :: rest =>
      let r := runOps normalizeV (hnsw_delete s chunk_id).2 rest
      (r.1, r.2)

lemma hnsw_add_next_label {V : Type} (normalizeV : V → V) (s : HnswState V)
    (chunk_id : String) (vector : V) (dimension : ℤ) :
    ((hnsw_add normalizeV s chunk_id vector dimension).2).next_label =
      (if dimension = s.dimension then s.next_label + 1 else s.next_label) := by
  unfold hnsw_add
  by_cases h : dimension = s.dimension
  · rw [if_neg (by simpa using h), if_pos h]
  · rw [if_pos h, if_neg h]

lemma hnsw_delete_next_label {V : Type} (s : HnswState V) (chunk_id : String) :
    ((hnsw_delete s chunk_id).2).next_label = s.next_label := by
  unfold hnsw_delete
  cases s.id_to_label chunk_id <;> rfl

lemma runOps_assigned_ge {V : Type} (normalizeV : V → V) (ops : List (HnswOp V)) :
    ∀ s : HnswState V, ∀ l ∈ (runOps normalizeV s ops).2, s.next_label ≤ l := by
  induction ops with
  | nil => intro s l hl; cases hl
  | cons op rest ih =>
      intro s l hl
      cases op with
      | add chunk_id vector dimension =>
          simp only [runOps, List.mem_append] at hl
          rcases hl with hl | hl
          · by_cases h : dimension = s.dimension
            · rw [if_pos h] at hl
              simp at hl
              omega
            · rw [if_neg h] at hl
              cases hl
          · have := ih _ l hl
            rw [hnsw_add_next_label] at this
            by_cases h : dimension = s.dimension
            · rw [if_pos h] at this
              omega
            · rw [if_neg h] at this
              exact this
      | del chunk_id =>
          simp only [runOps] at hl
          have := ih _ l hl
          rw [hnsw_delete_next_label] at this
          exact this

/-- C3: over any operation sequence on one index instance, the labels
assigned by successive `add` calls are strictly increasing — every newly
assigned label is strictly greater than every previously assigned label
(deleted or not), and no label is ever reused. -/
theorem label_monotonicity {V : Type} (normalizeV : V → V) (s : HnswState V)
    (ops : List (HnswOp V)) :
    List.Pairwise (· < ·) ((runOps normalizeV s ops).2) := by
  induction ops generalizing s with
  | nil => exact List.Pairwise.nil
  | cons op rest ih =>
      cases op with
      | add chunk_id vector dimension =>
          simp only [runOps]
          by_cases h : dimension = s.dimension
          · rw [if_pos h]
            refine List.Pairwise.cons ?_ (ih _)
            intro l hl
            have h1 := runOps_assigned_ge normalizeV rest _ l hl
            rw [hnsw_add_next_label, if_pos h] at h1
            omega
          · rw [if_neg h]
            simpa using ih _
      | del chunk_id =>
          simpa [runOps] using ih _

/-! ## Empty search results and result freeing (C10) -/

/-- C10: when tombstone filtering leaves nothing, `hnsw_search` returns
count `0` with a null results pointer, and `hnsw_free_results` on that
null pointer performs no deallocation at all. -/
theorem hnsw_search_empty_results (label_to_id : List String) (raw : List (ℚ × ℕ))
    (h : raw.filter
      (fun item => decide (item.2 < label_to_id.length ∧
        label_to_id.getD item.2 "" ≠ "")) = []) :
    hnsw_search_postprocess label_to_id raw = (none, 0) ∧
      ∀ count : ℤ, hnsw_free_results (hnsw_search_postprocess label_to_id raw).1 count = 0 := by
  have hmain : hnsw_search_postprocess label_to_id raw = (none, 0) := by
    unfold hnsw_search_postprocess
    rw [h]
    rfl
  exact ⟨hmain, fun count => by rw [hmain]; rfl⟩

/-- Closed witness for C10: a raw result whose label is out of range is
filtered out, the search returns `(null, 0)`, and freeing is a no-op. -/
theorem hnsw_search_empty_results_witness :
    hnsw_search_postprocess ["a"] [((1:ℚ)/2, 5)] = (none, 0) ∧
      hnsw_free_results (hnsw_search_postprocess ["a"] [((1:ℚ)/2, 5)]).1 0 = 0 := by
  have h := hnsw_search_empty_results ["a"] [((1:ℚ)/2, 5)] (by decide)
  exact ⟨h.1, h.2 0⟩

/-! ## Search similarity (C2)

`hnsw_search` L2-normalizes the query (line 587), and every stored vector
was L2-normalized by `hnsw_add` (line 514).  The ANN primitive's
`InnerProductSpace` reports the distance `1 - ⟨query, stored⟩`; the
wrapper converts it back with `similarity = 1 - distance` (line 627).
Normalization itself is real arithmetic (a square root); here the
normalized vectors appear directly, constrained by their squared norm. -/

/-- Inner product of two vectors. -/
def innerProductQ (a b : List ℚ) : ℚ :=
  (List.zipWith (fun x y => x * y) a b).sum

/-- Squared L2 norm, as computed in `normalize_vector` (lines 152-155). -/
def normSq (a : List ℚ) : ℚ :=
  innerProductQ a a

lemma normSq_nonneg (a : List ℚ) : 0 ≤ normSq a := by
  unfold normSq innerProductQ
  induction a with
  | nil => simp
  | cons x xs ih =>
      rw [List.zipWith_cons_cons, List.sum_cons]
      have := mul_self_nonneg x
      linarith

lemma innerProductQ_sq_le (a b : List ℚ) :
    (innerProductQ a b)^2 ≤ normSq a * normSq b := by
  induction a generalizing b with
  | nil =>
      simp [innerProductQ, normSq]
  | cons x xs ih =>
      cases b with
      | nil => simp [innerProductQ, normSq]
      | cons y ys =>
          have hA : 0 ≤ normSq xs := normSq_nonneg xs
          have hB : 0 ≤ normSq ys := normSq_nonneg ys
          have hS : (innerProductQ xs ys)^2 ≤ normSq xs * normSq ys := ih ys
          have hips : innerProductQ (x :: xs) (y :: ys) = x*y + innerProductQ xs ys := by
            unfold innerProductQ
            rw [List.zipWith_cons_cons, List.sum_cons]
          have hns1 : normSq (x :: xs) = x*x + normSq xs := by
            unfold normSq innerProductQ
            rw [List.zipWith_cons_cons, List.sum_cons]
          have hns2 : normSq (y :: ys) = y*y + normSq ys := by
            unfold normSq innerProductQ
            rw [List.zipWith_cons_cons, List.sum_cons]
          rw [hips, hns1, hns2]
          set S := innerProductQ xs ys
          set A := normSq xs
          set B := normSq ys
          by_cases hB0 : B = 0
          · have hS0 : S = 0 := by nlinarith [sq_nonneg S]
            rw [hB0, hS0]
            nlinarith [mul_self_nonneg x, mul_self_nonneg y, mul_nonneg hA (mul_self_nonneg y)]
          · have hBpos : 0 < B := lt_of_le_of_ne hB (Ne.symm hB0)
            have h1 : 0 ≤ (x*B - y*S)^2 := sq_nonneg _
            have h2 : 0 ≤ y^2 * (A*B - S^2) := mul_nonneg (sq_nonneg y) (by linarith)
            have h3 : 0 ≤ B * (A*B - S^2) := mul_nonneg hB (by linarith)
            nlinarith [h1, h2, h3, hBpos]

lemma innerProductQ_mem_unit (a b : List ℚ) (ha : normSq a ≤ 1) (hb : normSq b ≤ 1) :
    -1 ≤ innerProductQ a b ∧ innerProductQ a b ≤ 1 := by
  have h := innerProductQ_sq_le a b
  have hA := normSq_nonneg a
  have hB := normSq_nonneg b
  have h1 : (innerProductQ a b)^2 ≤ 1 := by nlinarith
  constructor
  · nlinarith [sq_nonneg (innerProductQ a b + 1)]
  · nlinarith [sq_nonneg (innerProductQ a b - 1)]

/-- C2 (amended): for a successful search over the L2-normalized query and
stored vectors, the results are ordered by descending similarity, each
similarity equals `1 - distance` (the inner product itself), and every
similarity lies in `[-1, 1]` (not `[0, 1]`: opposed vectors give `-1`). -/
theorem hnsw_search_results_spec
    (label_to_id : List String) (stored : ℕ → List ℚ) (q : List ℚ)
    (raw : List (ℚ × ℕ))
    (hsort : List.Pairwise (fun a b : ℚ × ℕ => b.1 ≤ a.1) raw)
    (hdist : ∀ p ∈ raw, p.1 = 1 - innerProductQ q (stored p.2))
    (hq : normSq q ≤ 1) (hstored : ∀ l : ℕ, normSq (stored l) ≤ 1)
    (res : List (String × ℚ))
    (hres : (hnsw_search_postprocess label_to_id raw).1 = some res) :
    List.Pairwise (fun a b : String × ℚ => b.2 ≤ a.2) res ∧
    (∀ r ∈ res, ∃ p ∈ raw, r.2 = 1 - p.1 ∧ r.2 = innerProductQ q (stored p.2)) ∧
    (∀ r ∈ res, -1 ≤ r.2 ∧ r.2 ≤ 1) := by
  unfold hnsw_search_postprocess at hres
  set valid := raw.filter
    (fun item => decide (item.2 < label_to_id.length ∧
      label_to_id.getD item.2 "" ≠ "")) with hvalid
  by_cases hcase : valid = []
  · rw [if_pos hcase] at hres
    cases hres
  · rw [if_neg hcase] at hres
    have hres2 : valid.reverse.map
        (fun item => (label_to_id.getD item.2 "", 1 - item.1)) = res :=
      Option.some.inj hres
    have hsub : ∀ p ∈ valid, p ∈ raw := by
      intro p hp
      exact List.mem_of_mem_filter hp
    refine ⟨?_, ?_, ?_⟩
    · rw [← hres2, List.pairwise_map, List.pairwise_reverse]
      have hv : List.Pairwise (fun a b : ℚ × ℕ => b.1 ≤ a.1) valid :=
        List.Pairwise.filter _ hsort
      exact hv.imp (fun h => by simpa using by linarith)
    · intro r hr
      rw [← hres2] at hr
      obtain ⟨p, hp, hfp⟩ := List.mem_map.mp hr
      have hpv : p ∈ valid := List.mem_reverse.mp hp
      have hpraw : p ∈ raw := hsub p hpv
      refine ⟨p, hpraw, ?_, ?_⟩
      · rw [← hfp]
      · rw [← hfp]
        have := hdist p hpraw
        simp only
        rw [this]
        ring
    · intro r hr
      rw [← hres2] at hr
      obtain ⟨p, hp, hfp⟩ := List.mem_map.mp hr
      have hpraw : p ∈ raw := hsub p (List.mem_reverse.mp hp)
      have hr2 : r.2 = innerProductQ q (stored p.2) := by
        rw [← hfp]
        have := hdist p hpraw
        simp only
        rw [this]
        ring
      rw [hr2]
      exact innerProductQ_mem_unit q (stored p.2) hq (hstored p.2)

/-- C2 counterexample: unit query `[1]` against unit stored vector `[-1]`
gives inner-product distance `2` and similarity `1 - 2 = -1 ∉ [0,1]`. -/
theorem C2_similarity_range_counterexample :
    normSq [(1:ℚ)] = 1 ∧ normSq [(-1:ℚ)] = 1 ∧
    1 - innerProductQ [(1:ℚ)] [(-1:ℚ)] = 2 ∧
    hnsw_search_postprocess ["a"] [((2:ℚ), 0)] = (some [("a", -1)], 1) ∧
    ¬ (0 ≤ (-1 : ℚ)) := by
  refine ⟨?_, ?_, ?_, ?_, by norm_num⟩
  · norm_num [normSq, innerProductQ]
  · norm_num [normSq, innerProductQ]
  · norm_num [innerProductQ]
  · simp [hnsw_search_postprocess]
    norm_num

/-- Closed witness for the amended C2 theorem: a two-result search with
distances `2` and `0` comes back ordered with similarities `[1, -1]`. -/
theorem hnsw_search_results_spec_witness :
    ∃ res : List (String × ℚ),
      (hnsw_search_postprocess ["a", "b"]
          [((2:ℚ), 0), ((0:ℚ), 1)]).1 = some res ∧
      List.Pairwise (fun a b : String × ℚ => b.2 ≤ a.2) res ∧
      (∀ r ∈ res, -1 ≤ r.2 ∧ r.2 ≤ 1) := by
  have hpost : (hnsw_search_postprocess ["a", "b"]
      [((2:ℚ), 0), ((0:ℚ), 1)]).1 = some [("b", 1 - 0), ("a", 1 - 2)] := by
    simp [hnsw_search_postprocess]
  have h := hnsw_search_results_spec ["a", "b"]
    (fun l => if l = 0 then [-1] else [1]) [(1:ℚ)]
    [((2:ℚ), 0), ((0:ℚ), 1)]
    (by norm_num)
    (by
      intro p hp
      fin_cases hp <;> norm_num [innerProductQ])
    (by norm_num [normSq, innerProductQ])
    (by
      intro l
      by_cases hl : l = 0 <;> simp [hl, normSq, innerProductQ])
    [("b", 1 - 0), ("a", 1 - 2)] hpost
  exact ⟨[("b", 1 - 0), ("a", 1 - 2)], hpost, h.1, h.2.2⟩

/-! ## Persistence loading and open (C4) -/

/-- Contents of the mapping file `id_mapping.bin` as written by
`save_id_mappings` (lines 164-193): precision tag, slot count, next
label, then per-slot `(label, id)` records. -/
structure MappingFile where
  precision : ℤ
  count : ℕ
  next_label : ℕ
  entries : List (ℕ × String)

/-- `load_id_mappings` replay (lines 357-374): `label_to_id` is resized
to `count` (all slots `""`), then the records are replayed in order; a
record whose label is out of range is ignored defensively; records with a
non-empty id also enter the reverse map. -/
def load_id_mappings (f : MappingFile) : (String → Option ℕ) × List String :=
  f.entries.foldl
    (fun acc e =>
      if e.1 < f.count then
        ((if e.2 ≠ "" then fun k => if k = e.2 then some e.1 else acc.1 k else acc.1),
         acc.2.set e.1 e.2)
      else acc)
    (fun _ => none, List.replicate f.count "")

/-- A compressed-vector file (`vectors.f16` / `vectors.i8`, lines
213-217): header counts plus one fixed-stride record per label.  The
byte-level record decoding (half or int8) is the PrecisionCodec modelled
above; `records` holds the decoded full-precision payloads. -/
structure VectorFile (V : Type) where
  num_vectors : ℕ
  dimensions : ℤ
  records : ℕ → V

/-- The files hnsw_open may find under the storage path: the mapping
file, the two possible compressed-vector files, and the ANN primitive's
native graph file (modelled by its stored capacity and points). -/
structure DiskState (V : Type) where
  mapping : Option MappingFile
  f16file : Option (VectorFile V)
  i8file : Option (VectorFile V)
  index_file : Option (ℕ × List (HnswPoint V))

/-- `load_compressed_vectors` (lines 276-334): FLOAT32 needs no separate
vector file; otherwise the file for the stored precision must exist and
its header dimension must equal the index dimension, and every label
below `num_vectors` whose registry slot is live is inserted into the
fresh graph (tombstoned slots are skipped). -/
def load_compressed_vectors (V : Type) (precision : ℤ) (dimension : ℤ)
    (label_to_id : List String) (f16file i8file : Option (VectorFile V)) :
    Option (List (HnswPoint V)) :=
  if precision = 1 ∨ precision = 2 then
    match (if precision = 1 then f16file else i8file) with
    | none => none
    | some f =>
        if f.dimensions ≠ dimension then none
        else some ((List.range f.num_vectors).foldl
          (fun pts label =>
            if label < label_to_id.length ∧ label_to_id.getD label "" ≠ "" then
              addPoint pts (f.records label) label
            else pts) [])
  else some []

/-- `hnsw_open` (lines 418-483): fails on non-positive dimension or a
missing mapping file; FLOAT32 loads the ANN primitive's own persisted
graph and takes its capacity; HALF/QUANT8 builds a fresh graph sized to
`label_to_id.size()` (or 100000 when that is zero) and replays the
compressed-vector file into it. -/
def hnsw_open (V : Type) (disk : DiskState V) (dimension : ℤ) :
    Option (HnswState V) :=
  if dimension ≤ 0 then none
  else
    match disk.mapping with
    | none => none
    | some mf =>
        let loaded := load_id_mappings mf
        if mf.precision = 0 then
          match disk.index_file with
          | none => none
          | some nativeIndex =>
              some { id_to_label := loaded.1
                     label_to_id := loaded.2
                     next_label := mf.next_label
                     max_elements := nativeIndex.1
                     dimension := dimension
                     precision := mf.precision
                     points := nativeIndex.2
                     modified := false }
        else
          let max_elements := if loaded.2.length = 0 then 100000 else loaded.2.length
          match load_compressed_vectors V mf.precision dimension loaded.2
              disk.f16file disk.i8file with
          | none => none
          | some pts =>
              some { id_to_label := loaded.1
                     label_to_id := loaded.2
                     next_label := mf.next_label
                     max_elements := max_elements
                     dimension := dimension
                     precision := mf.precision
                     points := pts
                     modified := false }

lemma load_id_mappings_length (mf : MappingFile) :
    (load_id_mappings mf).2.length = mf.count := by
  unfold load_id_mappings
  have hgen : ∀ (es : List (ℕ × String)) (acc : (String → Option ℕ) × List String),
      ((es.foldl (fun (acc : (String → Option ℕ) × List String) (e : ℕ × String) =>
        if e.1 < mf.count then
          ((if e.2 ≠ "" then fun k => if k = e.2 then some e.1 else acc.1 k else acc.1),
           acc.2.set e.1 e.2)
        else acc) acc).2).length = acc.2.length := by
    intro es
    induction es with
    | nil => intro acc; rfl
    | cons e rest ih =>
        intro acc
        rw [List.foldl_cons]
        by_cases h : e.1 < mf.count
        · rw [if_pos h, ih]
          simp
        · rw [if_neg h, ih]
  rw [hgen]
  exact List.length_replicate _ _

lemma foldl_addPoint_filter {V : Type} (P : ℕ → Prop) [DecidablePred P]
    (vecf : ℕ → V) (l : List ℕ) (acc : List (HnswPoint V)) :
    l.foldl (fun pts label => if P label then addPoint pts (vecf label) label else pts) acc
      = acc ++ (l.filter (fun x => decide (P x))).map
          (fun label => ⟨label, vecf label, false⟩) := by
  induction l generalizing acc with
  | nil => simp
  | cons a rest ih =>
      rw [List.foldl_cons]
      by_cases h : P a
      · rw [if_pos h, ih]
        unfold addPoint
        simp [List.filter_cons, h]
      · rw [if_neg h, ih]
        simp [List.filter_cons, h]


lemma load_compressed_vectors_file_none {V : Type} (precision dimension : ℤ)
    (l2i : List String) (f16 i8 : Option (VectorFile V))
    (hp : precision = 1 ∨ precision = 2)
    (hf : (if precision = 1 then f16 else i8) = none) :
    load_compressed_vectors V precision dimension l2i f16 i8 = none := by
  unfold load_compressed_vectors
  rw [if_pos hp, hf]

lemma load_compressed_vectors_dim_mismatch {V : Type} (precision dimension : ℤ)
    (l2i : List String) (f16 i8 : Option (VectorFile V))
    (hp : precision = 1 ∨ precision = 2) (f : VectorFile V)
    (hf : (if precision = 1 then f16 else i8) = some f)
    (hdm : f.dimensions ≠ dimension) :
    load_compressed_vectors V precision dimension l2i f16 i8 = none := by
  unfold load_compressed_vectors
  rw [if_pos hp]
  simp only [hf]
  rw [if_pos hdm]

lemma load_compressed_vectors_replay {V : Type} (precision dimension : ℤ)
    (l2i : List String) (f16 i8 : Option (VectorFile V))
    (hp : precision = 1 ∨ precision = 2) (f : VectorFile V)
    (hf : (if precision = 1 then f16 else i8) = some f)
    (hdm : f.dimensions = dimension) :
    load_compressed_vectors V precision dimension l2i f16 i8 =
      some (((List.range f.num_vectors).filter
        (fun l => decide (l < l2i.length ∧ l2i.getD l "" ≠ ""))).map
        (fun l => ⟨l, f.records l, false⟩)) := by
  unfold load_compressed_vectors
  rw [if_pos hp]
  simp only [hf]
  rw [if_neg (by rw [hdm]; exact fun h => h rfl)]
  rw [foldl_addPoint_filter
    (fun label => label < l2i.length ∧ l2i.getD label "" ≠ "") f.records]
  rw [List.nil_append]

/-- C4 (amended): `hnsw_open` fails on a missing mapping file; for FULL
precision it requires and loads the ANN primitive's persisted graph and
derives capacity from it; for HALF/QUANT8 it fails if the matching
compressed-vector file is absent or that file's stored dimension
disagrees with `dim`, otherwise it builds a fresh graph whose capacity is
`slotCount` — falling back to the default 100000 only when `slotCount`
is zero, NOT `max(slotCount, 100000)` — and replays exactly the live
labels of the compressed-vector file into it. -/
theorem hnsw_open_spec (V : Type) (disk : DiskState V) (dimension : ℤ)
    (hd : 0 < dimension) :
    (disk.mapping = none → hnsw_open V disk dimension = none) ∧
    (∀ mf : MappingFile, disk.mapping = some mf →
      ((mf.precision = 0 →
        (disk.index_file = none → hnsw_open V disk dimension = none) ∧
        (∀ native : ℕ × List (HnswPoint V), disk.index_file = some native →
          ∃ s : HnswState V, hnsw_open V disk dimension = some s ∧
            s.max_elements = native.1 ∧ s.points = native.2 ∧
            s.label_to_id = (load_id_mappings mf).2)) ∧
      ((mf.precision = 1 ∨ mf.precision = 2) →
        ((if mf.precision = 1 then disk.f16file else disk.i8file) = none →
          hnsw_open V disk dimension = none) ∧
        (∀ f : VectorFile V,
          (if mf.precision = 1 then disk.f16file else disk.i8file) = some f →
          (f.dimensions ≠ dimension → hnsw_open V disk dimension = none) ∧
          (f.dimensions = dimension →
            ∃ s : HnswState V, hnsw_open V disk dimension = some s ∧
              s.max_elements = (if mf.count = 0 then 100000 else mf.count) ∧
              s.label_to_id = (load_id_mappings mf).2 ∧
              s.points = ((List.range f.num_vectors).filter
                (fun l => decide (l < (load_id_mappings mf).2.length ∧
                  (load_id_mappings mf).2.getD l "" ≠ ""))).map
                (fun l => ⟨l, f.records l, false⟩)))))) := by
  have hdim : ¬ (dimension ≤ 0) := not_le.mpr hd
  constructor
  · intro hnone
    unfold hnsw_open
    rw [if_neg hdim, hnone]
  · intro mf hmf
    constructor
    · intro hprec
      constructor
      · intro hidx
        unfold hnsw_open
        rw [if_neg hdim, hmf]
        simp only [hprec, if_pos]
        rw [hidx]
      · intro native hidx
        refine ⟨{ id_to_label := (load_id_mappings mf).1
                  label_to_id := (load_id_mappings mf).2
                  next_label := mf.next_label
                  max_elements := native.1
                  dimension := dimension
                  precision := mf.precision
                  points := native.2
                  modified := false }, ?_, rfl, rfl, rfl⟩
        unfold hnsw_open
        rw [if_neg hdim, hmf]
        simp only [hprec, if_pos]
        rw [hidx]
    · intro hprec
      have hprec0 : ¬ (mf.precision = 0) := by
        rcases hprec with h | h <;> rw [h] <;> norm_num
      constructor
      · intro hfile
        unfold hnsw_open
        rw [if_neg hdim, hmf]
        simp only [if_neg hprec0]
        rw [load_compressed_vectors_file_none _ _ _ _ _ hprec hfile]
      · intro f hfile
        constructor
        · intro hdmis
          unfold hnsw_open
          rw [if_neg hdim, hmf]
          simp only [if_neg hprec0]
          rw [load_compressed_vectors_dim_mismatch _ _ _ _ _ hprec f hfile hdmis]
        · intro hdeq
          refine ⟨{ id_to_label := (load_id_mappings mf).1
                    label_to_id := (load_id_mappings mf).2
                    next_label := mf.next_label
                    max_elements := if (load_id_mappings mf).2.length = 0 then 100000
                      else (load_id_mappings mf).2.length
                    dimension := dimension
                    precision := mf.precision
                    points := ((List.range f.num_vectors).filter
                      (fun l => decide (l < (load_id_mappings mf).2.length ∧
                        (load_id_mappings mf).2.getD l "" ≠ ""))).map
                      (fun l => ⟨l, f.records l, false⟩)
                    modified := false }, ?_, ?_, rfl, rfl⟩
          · unfold hnsw_open
            rw [if_neg hdim, hmf]
            simp only [if_neg hprec0]
            rw [load_compressed_vectors_replay _ _ _ _ _ hprec f hfile hdeq]
          · show (if (load_id_mappings mf).2.length = 0 then 100000
              else (load_id_mappings mf).2.length) =
              (if mf.count = 0 then 100000 else mf.count)
            rw [load_id_mappings_length]

/-- C4 counterexample: with a HALF-precision mapping file holding 5 live
slots (and a matching vector file), the opened index capacity is 5 — but
with 0 slots it is 100000, pinning the default floor to 100000, so the
claimed capacity `max(slotCount, floor) = max(5, 100000) = 100000` is
wrong. -/
theorem C4_capacity_counterexample :
    Option.map (fun s => s.max_elements)
      (hnsw_open Unit
        { mapping := some ⟨1, 5, 5,
            [(0, "a"), (1, "b"), (2, "c"), (3, "d"), (4, "e")]⟩
          f16file := some ⟨5, 3, fun _ => ()⟩
          i8file := none
          index_file := none } 3) = some 5 ∧
    Option.map (fun s => s.max_elements)
      (hnsw_open Unit
        { mapping := some ⟨1, 0, 0, []⟩
          f16file := some ⟨0, 3, fun _ => ()⟩
          i8file := none
          index_file := none } 3) = some 100000 ∧
    (5 : ℕ) ≠ max 5 100000 := by
  refine ⟨?_, ?_, by decide⟩
  · rfl
  · rfl

/-- Closed witness for the amended C4 theorem on a concrete QUANT8 disk
state: capacity comes out as the slot count 2 and only the single live
label 0 is replayed. -/
theorem hnsw_open_spec_witness :
    ∃ s : HnswState Unit,
      hnsw_open Unit
        { mapping := some ⟨2, 2, 2, [(0, "a"), (1, "")]⟩
          f16file := none
          i8file := some ⟨2, 3, fun _ => ()⟩
          index_file := none } 3 = some s ∧
      s.max_elements = 2 ∧
      s.points = [⟨0, (), false⟩] := by
  have h := (((hnsw_open_spec Unit
      { mapping := some ⟨2, 2, 2, [(0, "a"), (1, "")]⟩
        f16file := none
        i8file := some ⟨2, 3, fun _ => ()⟩
        index_file := none } 3 (by norm_num)).2
    ⟨2, 2, 2, [(0, "a"), (1, "")]⟩ rfl).2 (Or.inr rfl)).2
    ⟨2, 3, fun _ => ()⟩ rfl
  obtain ⟨s, hs, hmax, hl2i, hpts⟩ := h.2 rfl
  refine ⟨s, hs, ?_, ?_⟩
  · rw [hmax]
    norm_num
  · rw [hpts]
    rfl

/-! ## IEEE 754 half-precision conversion (C7, lines 28-95)

Bit patterns are naturals below `2^32` / `2^16`.  Field extraction
`(x >> k) & mask` is written `x / 2^k % (mask+1)`; packing of disjoint
fields `(a << k) | b` is written `a * 2^k + b` (the fields never
overlap, so `|` is `+`). -/

/-- `float_to_half` (lines 28-63) on the float32 bit pattern. -/
def float_to_half (x : ℕ) : ℕ :=
  let sign := x / 2^31 % 2
  let exp : ℤ := (x / 2^23 % 256 : ℕ) - 127
  let mantissa := x % 2^23
  if exp = 128 then
    if mantissa = 0 then sign * 2^15 + 0x7C00
    else sign * 2^15 + 0x7E00
  else if exp < -24 then sign * 2^15
  else if exp < -14 then
    let m := mantissa + 0x800000
    let shift := (-14 - exp).toNat
    let m2 := m / 2^shift
    sign * 2^15 + m2 / 2^13
  else if exp > 15 then sign * 2^15 + 0x7C00
  else sign * 2^15 + (exp + 15).toNat * 2^10 + mantissa / 2^13

/-- The denormal normalization loop of `half_to_float` (lines 79-82),
with explicit fuel: the mantissa is nonzero and below `2^10`, so the C
loop runs at most 10 times; `exp` is tracked in `ℤ` (it is a `uint32_t`
in C, but for every reachable input the final `exp + 127 - 15` is
positive, so the wraparound arithmetic agrees with the `ℤ` value). -/
def denormLoop : ℕ → ℕ → ℤ → ℕ × ℤ
  | 0, mantissa, exp => (mantissa, exp)
  | fuel+1, mantissa, exp =>
      if mantissa / 2^10 % 2 = 0 then denormLoop fuel (mantissa * 2) (exp - 1)
      else (mantissa, exp)

/-- `half_to_float` (lines 66-95) on the half bit pattern. -/
def half_to_float (h : ℕ) : ℕ :=
  let sign := h / 2^15 % 2
  let exp := h / 2^10 % 32
  let mantissa := h % 2^10
  if exp = 0 then
    if mantissa = 0 then sign * 2^31
    else
      let r := denormLoop 32 mantissa 1
      let mantissa2 := r.1 % 2^10
      sign * 2^31 + (r.2 + 127 - 15).toNat * 2^23 + mantissa2 * 2^13
  else if exp = 31 then
    sign * 2^31 + 0x7F800000 + mantissa * 2^13
  else
    sign * 2^31 + (exp + 127 - 15) * 2^23 + mantissa * 2^13

/-- Value of a finite float32 bit pattern, scaled by `2^149` so that it
is an integer (every finite float32 value is a multiple of `2^-149`). -/
def float32ValZ (x : ℕ) : ℤ :=
  let sign : ℕ := x / 2^31 % 2
  let e : ℕ := x / 2^23 % 256
  let m : ℕ := x % 2^23
  (if sign = 1 then -1 else 1) *
    (if e = 0 then (m : ℤ) else ((2^23 + m : ℕ) : ℤ) * 2^(e-1))

/-- One half-precision ULP at the binade of float32 exponent field `e`,
scaled by `2^149` (subnormal half ULP `2^-24` below the normal range). -/
def halfUlpZ (e : ℕ) : ℤ :=
  if 113 ≤ e then 2^(e + 12) else 2^125

lemma denormLoop_eq (k : ℕ) : ∀ (fuel d : ℕ) (e : ℤ),
    2^10 ≤ d * 2^k → d * 2^k < 2^11 → k ≤ fuel →
    denormLoop fuel d e = (d * 2^k, e - k) := by
  induction k with
  | zero =>
      intro fuel d e hlo hhi _
      simp only [pow_zero, mul_one] at hlo hhi
      cases fuel with
      | zero => simp [denormLoop]
      | succ f =>
          unfold denormLoop
          rw [if_neg (by omega)]
          simp
  | succ k ih =>
      intro fuel d e hlo hhi hfuel
      cases fuel with
      | zero => omega
      | succ f =>
          unfold denormLoop
          rw [if_pos (by
            have hd : d < 2^10 := by
              by_contra hc
              push_neg at hc
              have h1 : 2^10 * 2^(k+1) ≤ d * 2^(k+1) :=
                Nat.mul_le_mul_right _ hc
              have h2 : 2^11 ≤ 2^10 * 2^(k+1) := by
                rw [← pow_add]
                exact Nat.pow_le_pow_right (by norm_num) (by omega)
              omega
            omega)]
          rw [ih f (d * 2) (e - 1)
            (by rw [mul_assoc]; rw [show (2:ℕ) * 2^k = 2^(k+1) from (pow_succ 2 k).symm ▸ by ring]; exact hlo)
            (by rw [mul_assoc]; rw [show (2:ℕ) * 2^k = 2^(k+1) from (pow_succ 2 k).symm ▸ by ring]; exact hhi)
            (by omega)]
          rw [Prod.mk.injEq]
          constructor
          · ring
          · push_cast
            ring

lemma float_to_half_nan (x : ℕ) (he : x / 2^23 % 256 = 255) (hm : x % 2^23 ≠ 0) :
    float_to_half x = x / 2^31 % 2 * 2^15 + 0x7E00 := by
  simp only [float_to_half]
  split_ifs <;> first | omega | (exfalso; omega)

lemma float_to_half_inf (x : ℕ) (he : x / 2^23 % 256 = 255) (hm : x % 2^23 = 0) :
    float_to_half x = x / 2^31 % 2 * 2^15 + 0x7C00 := by
  simp only [float_to_half]
  split_ifs <;> first | omega | (exfalso; omega)

lemma float_to_half_overflow (x : ℕ) (h1 : 142 < x / 2^23 % 256)
    (h2 : x / 2^23 % 256 < 255) :
    float_to_half x = x / 2^31 % 2 * 2^15 + 0x7C00 := by
  simp only [float_to_half]
  split_ifs <;> first | omega | (exfalso; omega)

lemma float_to_half_flush (x : ℕ) (h1 : x / 2^23 % 256 < 103) :
    float_to_half x = x / 2^31 % 2 * 2^15 := by
  simp only [float_to_half]
  split_ifs <;> first | omega | (exfalso; omega)

lemma float_to_half_normal (x : ℕ) (h1 : 113 ≤ x / 2^23 % 256)
    (h2 : x / 2^23 % 256 ≤ 142) :
    float_to_half x = x / 2^31 % 2 * 2^15 +
      (x / 2^23 % 256 - 112) * 2^10 + x % 2^23 / 2^13 := by
  simp only [float_to_half]
  split_ifs <;> first | omega | (exfalso; omega)

lemma float_to_half_subnormal (x : ℕ) (h1 : 103 ≤ x / 2^23 % 256)
    (h2 : x / 2^23 % 256 ≤ 112) :
    float_to_half x = x / 2^31 % 2 * 2^15 +
      (x % 2^23 + 0x800000) / 2^(126 - x / 2^23 % 256) := by
  simp only [float_to_half]
  split_ifs with ha hb hc hd he
  all_goals first
  | (exfalso; omega)
  | (rw [Nat.div_div_eq_div_mul, ← pow_add]
     have hsh : (-14 - ((x / 2^23 % 256 : ℕ) - 127 : ℤ)).toNat + 13 =
         126 - x / 2^23 % 256 := by omega
     rw [hsh])

lemma half_to_float_zero_mantissa (h : ℕ) (h1 : h / 2^10 % 32 = 0)
    (h2 : h % 2^10 = 0) :
    half_to_float h = h / 2^15 % 2 * 2^31 := by
  simp only [half_to_float]
  split_ifs <;> first | omega | (exfalso; omega)

lemma half_to_float_normal (h : ℕ) (h1 : 1 ≤ h / 2^10 % 32)
    (h2 : h / 2^10 % 32 ≤ 30) :
    half_to_float h = h / 2^15 % 2 * 2^31 +
      (h / 2^10 % 32 + 112) * 2^23 + h % 2^10 * 2^13 := by
  simp only [half_to_float]
  split_ifs <;> first | omega | (exfalso; omega)

lemma half_to_float_denormal (h : ℕ) (k : ℕ) (h1 : h / 2^10 % 32 = 0)
    (hlo : 2^10 ≤ h % 2^10 * 2^k) (hhi : h % 2^10 * 2^k < 2^11) :
    half_to_float h = h / 2^15 % 2 * 2^31 + (113 - k) * 2^23 +
      (h % 2^10 * 2^k - 2^10) * 2^13 := by
  have hm1 : 1 ≤ h % 2^10 := by
    rcases Nat.eq_zero_or_pos (h % 2^10) with h0 | h0
    · rw [h0, zero_mul] at hlo
      omega
    · exact h0
  have hk10 : k ≤ 10 := by
    by_contra hc
    push_neg at hc
    have hx1 : (2:ℕ)^11 ≤ 2^k := Nat.pow_le_pow_right (by norm_num) hc
    have hx2 : (2:ℕ)^k ≤ h % 2^10 * 2^k := Nat.le_mul_of_pos_left _ hm1
    omega
  simp only [half_to_float]
  split_ifs with ha hb hc
  all_goals first
  | (exfalso; omega)
  | (rw [denormLoop_eq k 32 (h % 2^10) 1 hlo hhi (by omega)]
     simp only
     have htn : ((1:ℤ) - k + 127 - 15).toNat = 113 - k := by omega
     rw [htn]
     have hgen : ∀ X : ℕ, 2^10 ≤ X → X < 2^11 →
         h / 2^15 % 2 * 2^31 + (113 - k) * 2^23 + X % 2^10 * 2^13 =
         h / 2^15 % 2 * 2^31 + (113 - k) * 2^23 + (X - 2^10) * 2^13 := by
       intro X hX1 hX2
       have hXmod : X % 2^10 = X - 2^10 := by omega
       rw [hXmod]
     exact hgen _ hlo hhi)

lemma abs_sgn_mul_diff (sgn A B E : ℤ) (hsgn : sgn = 1 ∨ sgn = -1) :
    |sgn * (A * E) - sgn * (B * E)| = |A - B| * |E| := by
  rcases hsgn with h | h <;> subst h
  · rw [show (1:ℤ) * (A * E) - 1 * (B * E) = (A - B) * E by ring, abs_mul]
  · rw [show (-1:ℤ) * (A * E) - -1 * (B * E) = -((A - B) * E) by ring, abs_neg, abs_mul]

lemma roundtrip_bound_normal (x : ℕ) (h1 : 113 ≤ x / 2^23 % 256)
    (h2 : x / 2^23 % 256 ≤ 142) :
    |float32ValZ (half_to_float (float_to_half x)) - float32ValZ x| ≤
      halfUlpZ (x / 2^23 % 256) := by
  set s := x / 2^31 % 2 with hs_def
  set e := x / 2^23 % 256 with he_def
  set m := x % 2^23 with hm_def
  have hs : s ≤ 1 := by omega
  have he : e < 256 := by omega
  have hm : m < 2^23 := by omega
  have henc : float_to_half x = s * 2^15 + (e - 112) * 2^10 + m / 2^13 :=
    float_to_half_normal x h1 h2
  rw [henc]
  set X := s * 2^15 + (e - 112) * 2^10 + m / 2^13 with hX_def
  have hf1 : X / 2^10 % 32 = e - 112 := by omega
  have hf2 : X / 2^15 % 2 = s := by omega
  have hf3 : X % 2^10 = m / 2^13 := by omega
  have hdec : half_to_float X = s * 2^31 + e * 2^23 + m / 2^13 * 2^13 := by
    rw [half_to_float_normal X (by omega) (by omega), hf1, hf2, hf3]
    omega
  rw [hdec]
  set R := s * 2^31 + e * 2^23 + m / 2^13 * 2^13 with hR_def
  have hr1 : R / 2^31 % 2 = s := by omega
  have hr2 : R / 2^23 % 256 = e := by omega
  have hr3 : R % 2^23 = m / 2^13 * 2^13 := by omega
  simp only [float32ValZ]
  rw [hr1, hr2, hr3, ← hs_def, ← he_def, ← hm_def]
  rw [if_neg (show ¬ e = 0 by omega), if_neg (show ¬ e = 0 by omega)]
  set sgn : ℤ := if s = 1 then -1 else 1 with hsgn_def
  have hsgn : sgn = 1 ∨ sgn = -1 := by
    by_cases hss : s = 1
    · right
      rw [hsgn_def, if_pos hss]
    · left
      rw [hsgn_def, if_neg hss]
  set A : ℤ := ((2^23 + m / 2^13 * 2^13 : ℕ) : ℤ) with hA_def
  set B : ℤ := ((2^23 + m : ℕ) : ℤ) with hB_def
  set E : ℤ := (2:ℤ)^(e-1) with hE_def
  have hEpos : 0 < E := by positivity
  rw [abs_sgn_mul_diff sgn A B E hsgn]
  have hAB : A ≤ B := by
    rw [hA_def, hB_def]
    have : m / 2^13 * 2^13 ≤ m := Nat.div_mul_le_self m (2^13)
    exact_mod_cast Nat.add_le_add_left this _
  have hdiff : B - A = ((m - m / 2^13 * 2^13 : ℕ) : ℤ) := by
    rw [hA_def, hB_def]
    have : m / 2^13 * 2^13 ≤ m := Nat.div_mul_le_self m (2^13)
    push_cast [this]
    omega
  have habs : |A - B| = ((m - m / 2^13 * 2^13 : ℕ) : ℤ) := by
    rw [abs_sub_comm, abs_of_nonneg (by omega : (0:ℤ) ≤ B - A), hdiff]
  rw [habs, abs_of_pos hEpos]
  have hsmall : ((m - m / 2^13 * 2^13 : ℕ) : ℤ) ≤ 2^13 - 1 := by omega
  have hulp : halfUlpZ e = 2^13 * E := by
    rw [halfUlpZ, if_pos h1, hE_def, ← pow_add]
    congr 1
    omega
  rw [hulp]
  calc ((m - m / 2^13 * 2^13 : ℕ) : ℤ) * E ≤ (2^13 - 1) * E :=
        mul_le_mul_of_nonneg_right hsmall (le_of_lt hEpos)
    _ ≤ 2^13 * E := by
        have hsub : ((2:ℤ)^13 - 1) * E = 2^13 * E - E := by ring
        rw [hsub]
        linarith [hEpos]

set_option maxHeartbeats 1000000 in
lemma roundtrip_bound_subnormal (x : ℕ) (h1 : 103 ≤ x / 2^23 % 256)
    (h2 : x / 2^23 % 256 ≤ 112) :
    |float32ValZ (half_to_float (float_to_half x)) - float32ValZ x| ≤
      halfUlpZ (x / 2^23 % 256) := by
  set s := x / 2^31 % 2 with hs_def
  set e := x / 2^23 % 256 with he_def
  set m := x % 2^23 with hm_def
  have hs : s ≤ 1 := by omega
  have hm : m < 2^23 := by omega
  have henc0 := float_to_half_subnormal x h1 h2
  rw [← hs_def, ← he_def, ← hm_def] at henc0
  set c := 126 - e with hc_def
  have hc1 : 14 ≤ c := by omega
  have hc2 : c ≤ 23 := by omega
  set mfull := m + 0x800000 with hmfull_def
  have hmf1 : 2^23 ≤ mfull := by omega
  have hmf2 : mfull < 2^24 := by omega
  set d := mfull / 2^c with hd_def
  set k := 113 - e with hk_def
  have hk1 : 1 ≤ k := by omega
  have hk10 : k ≤ 10 := by omega
  have hck : c = k + 13 := by omega
  have hpow_pos : 0 < (2:ℕ)^c := pow_pos (by norm_num) c
  -- bounds on d and d * 2^k
  have hd_lo_pow : (2:ℕ)^(23 - c) ≤ d := by
    have h23 : (2:ℕ)^23 / 2^c = 2^(23 - c) := Nat.pow_div (by omega) (by norm_num)
    rw [hd_def, ← h23]
    exact Nat.div_le_div_right hmf1
  have hd_hi_pow : d < 2^(24 - c) := by
    rw [hd_def]
    apply Nat.div_lt_of_lt_mul
    calc mfull < 2^24 := hmf2
      _ = 2^c * 2^(24 - c) := by rw [← pow_add]; congr 1; omega
  have hdlo : 2^10 ≤ d * 2^k := by
    calc (2:ℕ)^10 = 2^(23 - c) * 2^k := by rw [← pow_add]; congr 1; omega
      _ ≤ d * 2^k := Nat.mul_le_mul_right _ hd_lo_pow
  have hdhi : d * 2^k < 2^11 := by
    calc d * 2^k < 2^(24 - c) * 2^k :=
          mul_lt_mul_of_pos_right hd_hi_pow (pow_pos (by norm_num) k)
      _ = 2^11 := by rw [← pow_add]; congr 1; omega
  have h2k : 2 ≤ 2^k := by
    calc (2:ℕ) = 2^1 := (pow_one 2).symm
      _ ≤ 2^k := Nat.pow_le_pow_right (by norm_num) hk1
  have hdsmall : d < 2^10 := by
    have hmul : d * 2 ≤ d * 2^k := Nat.mul_le_mul_left d h2k
    omega
  have hd1 : 1 ≤ d := by
    have : (1:ℕ) ≤ 2^(23 - c) := Nat.one_le_two_pow
    omega
  rw [henc0]
  set X := s * 2^15 + d with hX_def
  have hf1 : X / 2^10 % 32 = 0 := by omega
  have hf2 : X / 2^15 % 2 = s := by omega
  have hf3 : X % 2^10 = d := by omega
  have hlo2 : 2^10 ≤ X % 2^10 * 2^k := by rw [hf3]; exact hdlo
  have hhi2 : X % 2^10 * 2^k < 2^11 := by rw [hf3]; exact hdhi
  have hdec := half_to_float_denormal X k hf1 hlo2 hhi2
  rw [hf2, hf3] at hdec
  have h113k : 113 - k = e := by omega
  rw [h113k] at hdec
  rw [hdec]
  set D := d * 2^k with hD_def
  set R := s * 2^31 + e * 2^23 + (D - 2^10) * 2^13 with hR_def
  have hr1 : R / 2^31 % 2 = s := by omega
  have hr2 : R / 2^23 % 256 = e := by omega
  have hr3 : R % 2^23 = (D - 2^10) * 2^13 := by omega
  simp only [float32ValZ]
  rw [hr1, hr2, hr3, ← hs_def, ← he_def, ← hm_def]
  rw [if_neg (show ¬ e = 0 by omega), if_neg (show ¬ e = 0 by omega)]
  set sgn : ℤ := if s = 1 then -1 else 1 with hsgn_def
  have hsgn : sgn = 1 ∨ sgn = -1 := by
    by_cases hss : s = 1
    · right
      rw [hsgn_def, if_pos hss]
    · left
      rw [hsgn_def, if_neg hss]
  set A : ℤ := ((2^23 + (D - 2^10) * 2^13 : ℕ) : ℤ) with hA_def
  set B : ℤ := ((2^23 + m : ℕ) : ℤ) with hB_def
  set E : ℤ := (2:ℤ)^(e-1) with hE_def
  have hEpos : 0 < E := by positivity
  rw [abs_sgn_mul_diff sgn A B E hsgn]
  -- A = d * 2^c as a natural number
  have hA_nat : (2^23 + (D - 2^10) * 2^13 : ℕ) = 2^c * d := by
    have hDD : (2^23 + (D - 2^10) * 2^13 : ℕ) = D * 2^13 := by omega
    have hkc : k + 13 = c := by omega
    rw [hDD, hD_def, mul_assoc, ← pow_add, hkc]
    exact mul_comm d (2^c)
  -- the division remainder
  have hdm := Nat.div_add_mod mfull (2^c)
  rw [← hd_def] at hdm
  have hmodlt : mfull % 2^c < 2^c := Nat.mod_lt _ hpow_pos
  have hle_nat : 2^c * d ≤ 2^23 + m := by omega
  have hBA_nat : (2^23 + m) - 2^c * d = mfull % 2^c := by omega
  have hAB : A ≤ B := by
    rw [hA_def, hB_def, hA_nat]
    exact_mod_cast hle_nat
  have hdiffB : B - A = ((mfull % 2^c : ℕ) : ℤ) := by
    rw [hA_def, hB_def, hA_nat, ← Nat.cast_sub hle_nat, hBA_nat]
  have habs2 : |A - B| = ((mfull % 2^c : ℕ) : ℤ) := by
    rw [abs_sub_comm, abs_of_nonneg (sub_nonneg.mpr hAB), hdiffB]
  rw [habs2, abs_of_pos hEpos]
  have hulp : halfUlpZ e = 2^c * E := by
    have hexp : c + (e - 1) = 125 := by omega
    rw [halfUlpZ, if_neg (show ¬ 113 ≤ e by omega), hE_def, ← pow_add, hexp]
  rw [hulp]
  have hsmall2 : ((mfull % 2^c : ℕ) : ℤ) ≤ 2^c - 1 := by
    have h1n : mfull % 2^c ≤ 2^c - 1 := by omega
    calc ((mfull % 2^c : ℕ) : ℤ) ≤ ((2^c - 1 : ℕ) : ℤ) := by exact_mod_cast h1n
      _ = (2:ℤ)^c - 1 := by
          rw [Nat.cast_sub Nat.one_le_two_pow]
          push_cast
          ring
  have hcpos : (0:ℤ) < 2^c := by positivity
  calc ((mfull % 2^c : ℕ) : ℤ) * E ≤ ((2:ℤ)^c - 1) * E :=
        mul_le_mul_of_nonneg_right hsmall2 (le_of_lt hEpos)
    _ ≤ (2:ℤ)^c * E := by
        have hsub : ((2:ℤ)^c - 1) * E = 2^c * E - E := by ring
        rw [hsub]
        linarith [hEpos]

lemma subnormal_d_bounds (m e : ℕ) (hm : m < 2^23) (h1 : 103 ≤ e) (h2 : e ≤ 112) :
    1 ≤ (m + 0x800000) / 2^(126 - e) ∧ (m + 0x800000) / 2^(126 - e) < 2^10 := by
  have hpow_pos : 0 < (2:ℕ)^(126 - e) := pow_pos (by norm_num) _
  constructor
  · rw [Nat.one_le_div_iff hpow_pos]
    calc (2:ℕ)^(126 - e) ≤ 2^23 := Nat.pow_le_pow_right (by norm_num) (by omega)
      _ ≤ m + 0x800000 := by omega
  · have hstep : (m + 0x800000) / 2^(126 - e) < 2^(e - 102) := by
      apply Nat.div_lt_of_lt_mul
      calc m + 0x800000 < 2^24 := by omega
        _ = 2^(126 - e) * 2^(e - 102) := by rw [← pow_add]; congr 1; omega
    calc (m + 0x800000) / 2^(126 - e) < 2^(e - 102) := hstep
      _ ≤ 2^10 := Nat.pow_le_pow_right (by norm_num) (by omega)

/-- C7: `float_to_half` / `half_to_float` implement IEEE 754 binary16
conversion: payload-bearing NaNs collapse to the canonical code `0x7E00`
(sign preserved), infinities map to `0x7C00`, finite inputs above the
half range overflow to infinity, inputs below the subnormal half range
(including float32 zeros and subnormals) flush to the correctly signed
zero and round-trip to the signed zero pattern, inputs in the subnormal
half range get a denormalized encoding (zero exponent field, nonzero
mantissa), and every input in the representable half range round-trips
through `half_to_float ∘ float_to_half` to within one half-precision ULP
of its value. -/
theorem half_precision_roundtrip_spec (x : ℕ) (hx : x < 2^32) :
    (x / 2^23 % 256 = 255 ∧ x % 2^23 ≠ 0 →
      float_to_half x = x / 2^31 % 2 * 2^15 + 0x7E00) ∧
    (x / 2^23 % 256 = 255 ∧ x % 2^23 = 0 →
      float_to_half x = x / 2^31 % 2 * 2^15 + 0x7C00) ∧
    (142 < x / 2^23 % 256 ∧ x / 2^23 % 256 < 255 →
      float_to_half x = x / 2^31 % 2 * 2^15 + 0x7C00) ∧
    (x / 2^23 % 256 < 103 →
      float_to_half x = x / 2^31 % 2 * 2^15 ∧
      half_to_float (float_to_half x) = x / 2^31 % 2 * 2^31) ∧
    (103 ≤ x / 2^23 % 256 → x / 2^23 % 256 ≤ 112 →
      float_to_half x % 2^15 < 2^10 ∧ 1 ≤ float_to_half x % 2^10) ∧
    (103 ≤ x / 2^23 % 256 → x / 2^23 % 256 ≤ 142 →
      |float32ValZ (half_to_float (float_to_half x)) - float32ValZ x| ≤
        halfUlpZ (x / 2^23 % 256)) := by
  refine ⟨?_, ?_, ?_, ?_, ?_, ?_⟩
  · intro ⟨he, hm⟩
    exact float_to_half_nan x he hm
  · intro ⟨he, hm⟩
    exact float_to_half_inf x he hm
  · intro ⟨he1, he2⟩
    exact float_to_half_overflow x he1 he2
  · intro he
    have henc := float_to_half_flush x he
    refine ⟨henc, ?_⟩
    rw [henc]
    have hs : x / 2^31 % 2 ≤ 1 := by omega
    rw [half_to_float_zero_mantissa (x / 2^31 % 2 * 2^15) (by omega) (by omega)]
    omega
  · intro h1 h2
    have henc := float_to_half_subnormal x h1 h2
    have hd := subnormal_d_bounds (x % 2^23) (x / 2^23 % 256) (by omega) h1 h2
    have hs : x / 2^31 % 2 ≤ 1 := by omega
    rw [henc]
    omega
  · intro h1 h2
    by_cases hcase : 113 ≤ x / 2^23 % 256
    · exact roundtrip_bound_normal x hcase h2
    · exact roundtrip_bound_subnormal x h1 (by omega)

/-- Closed witness for C7 at `x = 0x3FC00000` (the float32 pattern of
`1.5`): it encodes to `0x3E00` and round-trips exactly. -/
theorem half_precision_roundtrip_spec_witness :
    float_to_half 0x3FC00000 = 0x3E00 ∧
    |float32ValZ (half_to_float (float_to_half 0x3FC00000)) -
        float32ValZ 0x3FC00000| ≤ halfUlpZ (0x3FC00000 / 2^23 % 256) := by
  have h := half_precision_roundtrip_spec 0x3FC00000 (by norm_num)
  exact ⟨by decide, h.2.2.2.2.2 (by norm_num) (by norm_num)⟩
